import Mathlib

/-!
Verification of the hugo-bros frontmatter engine against its specification.

The development shallowly embeds `src-tauri/src/markdown.rs` (the frontmatter
parser, the serializer, `Post`/`Page`/`Draft` construction),
`src-tauri/src/commands.rs` (the content listings `list_posts`, `list_pages`,
`list_drafts`, and `validate_relative_path`) and the directory resolution of
`src-tauri/src/hugo.rs`.

Rust `str` values are modelled as lists of Unicode characters; the byte
positions Rust uses (`str::find`, slicing) land on character boundaries at
every place the code slices, so character positions are a faithful model.
The external codecs (`serde_yaml`, `toml`, `serde_json`) are modelled on the
fragment of their input languages the repository's documents use: each
decoder produces a key/value pair list and the pairs are bound to the
`FrontmatterYaml` schema exactly as serde's derive with `#[serde(flatten)]`
binds them (known keys first, the rest into the open bag, duplicate keys
rejected).  The emitter mirrors serde_yaml's block style: one `key: value`
line per field in struct declaration order, absent optional fields omitted,
empty lists as `[]`, block sequences as unindented `- item` lines, strings
quoted only when a plain scalar would be misread.
-/

namespace HugoBros

/-- Text is modelled as the list of the string's characters (Rust `str`). -/
abbrev Str := List Char

def strOf (s : String) : Str := s.toList

def squoteC : Char := Char.ofNat 39
def dquoteC : Char := Char.ofNat 34
def lbraceC : Char := Char.ofNat 123
def rbraceC : Char := Char.ofNat 125
def lbrackC : Char := Char.ofNat 91
def rbrackC : Char := Char.ofNat 93
def bslashC : Char := Char.ofNat 92
def btickC : Char := Char.ofNat 96

/-- Whitespace as trimmed by `str::trim` on the documents in scope. -/
def isWsC (c : Char) : Bool := c = ' ' || c = '\t' || c = '\n' || c = '\r'

def trimStartL (s : Str) : Str := s.dropWhile isWsC

def trimEndL (s : Str) : Str := (s.reverse.dropWhile isWsC).reverse

def trimL (s : Str) : Str := trimEndL (trimStartL s)

/-- Position of the first occurrence of `sep` as a contiguous substring
(Rust `str::find`). -/
def findSub (sep : Str) : Str → Option Nat
  | [] => if sep = [] then some 0 else none
  | c :: t => if sep.isPrefixOf (c :: t) then some 0 else (findSub sep t).map (· + 1)

def hasSub (sep s : Str) : Bool := (findSub sep s).isSome

/-- Rust `str::splitn(n, sep)`: split at the leftmost occurrences of `sep`,
returning at most `n` parts, the last part unsplit. -/
def splitnSep : Nat → Str → Str → List Str
  | 0, _, _ => []
  | 1, _, s => [s]
  | n + 2, sep, s =>
    match findSub sep s with
    | none => [s]
    | some i => s.take i :: splitnSep (n + 1) sep (s.drop (i + sep.length))

def splitOnChar (c : Char) : Str → List Str
  | [] => [[]]
  | x :: t =>
    match splitOnChar c t with
    | [] => [[x]]
    | h :: r => if x = c then [] :: h :: r else (x :: h) :: r

/-! ## The YAML / TOML / JSON value model

`serde_yaml::Value` restricted to the shapes the repository's frontmatter
documents produce: scalars and sequences of scalars.  Integer literals keep
their canonical decimal text. -/

inductive YScalar where
  | s (v : Str)
  | b (v : Bool)
  | i (digits : Str)
  | null
deriving DecidableEq

inductive YValue where
  | scal (v : YScalar)
  | seq (items : List YScalar)
deriving DecidableEq

/-- Canonical decimal integer literal: optional minus then digits without a
leading zero. -/
def isCanonInt (v : Str) : Bool :=
  let core := if v.head? = some '-' then v.drop 1 else v
  !core.isEmpty && core.all (·.isDigit) && (core.head? != some '0' || core == ['0'])

/-- Characters that may not open a plain YAML scalar. -/
def reservedHeadC (c : Char) : Bool :=
  c = '-' || c = '?' || c = ':' || c = ',' || c = '#' || c = '&' || c = '*' ||
  c = '!' || c = '|' || c = '>' || c = '%' || c = '@' || c = squoteC ||
  c = dquoteC || c = lbraceC || c = rbraceC || c = lbrackC || c = rbrackC || c = btickC

/-- A text that reads back as the same plain scalar. -/
def plainOk (v : Str) : Bool :=
  !v.isEmpty && !reservedHeadC (v.headD ' ') &&
  !hasSub (strOf ": ") v && !hasSub (strOf " #") v &&
  (v.getLastD ' ' != ':')

/-- Single-quoted scalar body: read to the closing quote (doubled quotes are
escapes); nothing may follow the closing quote. -/
def sqAux : Str → Option Str
  | [] => none
  | c :: rest =>
    if c = squoteC then
      match rest with
      | [] => some []
      | c2 :: rest2 => if c2 = squoteC then (sqAux rest2).map (squoteC :: ·) else none
    else (sqAux rest).map (c :: ·)

/-- Double-quoted scalar body without escapes; nothing may follow the closing
quote. -/
def dqAux : Str → Option Str
  | [] => none
  | c :: rest =>
    if c = dquoteC then (if rest = [] then some [] else none)
    else if c = bslashC then none
    else (dqAux rest).map (c :: ·)

def parseScalar (v : Str) : Option YScalar :=
  if v = strOf "true" then some (.b true)
  else if v = strOf "false" then some (.b false)
  else if v = strOf "null" || v = strOf "~" then some .null
  else if isCanonInt v then some (.i v)
  else if v.head? = some squoteC then (sqAux (v.drop 1)).map .s
  else if v.head? = some dquoteC then (dqAux (v.drop 1)).map .s
  else if plainOk v then some (.s v)
  else none

def valueOf (v : Str) : Option YValue :=
  if v = strOf "[]" then some (.seq [])
  else (parseScalar v).map .scal

def scalarOrNull (v : Str) : Option YScalar :=
  if v = [] then some .null else parseScalar v

/-- A block-sequence item line: `- item` (or a bare dash). -/
def dashItem? (t : Str) : Option Str :=
  if t = ['-'] then some []
  else if t.head? = some '-' && t.get? 1 = some ' ' then some (trimL (t.drop 2))
  else none

/-- Mapping keys the modelled decoder admits. -/
def keyOk (k : Str) : Bool :=
  !k.isEmpty && !k.any (fun c => c = ':' || c = '\n') &&
  !isWsC (k.headD 'a') && !isWsC (k.getLastD 'a') &&
  !reservedHeadC (k.headD 'a')

/-- Split a `key: value` line; the colon must be followed by a space or end
the line. -/
def keyLine? (t : Str) : Option (Str × Str) :=
  match findSub [':'] t with
  | none => none
  | some i =>
    let k := t.take i
    let rest := t.drop (i + 1)
    if keyOk k && (rest.isEmpty || rest.head? = some ' ') then
      some (k, trimL rest)
    else none

/-- Close a pending `key:` entry: collected dash items become a sequence, no
items means an explicit null value. -/
def flushPending : Option (Str × List YScalar) → List (Str × YValue)
  | none => []
  | some (k, items) =>
    [(k, if items.isEmpty then YValue.scal .null else YValue.seq items)]

/-- Decode the modelled block-mapping lines into an ordered pair list.  A
`key:` line with empty value opens a pending entry that following `- item`
lines extend; any other line closes it. -/
def linesToPairsAux (pending : Option (Str × List YScalar)) :
    List Str → Option (List (Str × YValue))
  | [] => some (flushPending pending)
  | l :: rest =>
    let t := trimL l
    if t = [] then
      (linesToPairsAux none rest).map (flushPending pending ++ ·)
    else
      match dashItem? t with
      | some c =>
        match pending with
        | none => none
        | some (k, items) =>
          match scalarOrNull c with
          | none => none
          | some v => linesToPairsAux (some (k, items ++ [v])) rest
      | none =>
        match keyLine? t with
        | none => none
        | some (k, v) =>
          if v = [] then
            (linesToPairsAux (some (k, [])) rest).map (flushPending pending ++ ·)
          else
            match valueOf v with
            | none => none
            | some yv =>
              (linesToPairsAux none rest).map
                (fun tail => flushPending pending ++ (k, yv) :: tail)

def linesToPairs (ls : List Str) : Option (List (Str × YValue)) :=
  linesToPairsAux none ls

/-- One `"key": value` item of a flow (JSON-style) mapping. -/
def flowItem? (it : Str) : Option (Str × YValue) :=
  let t := trimL it
  match findSub [':'] t with
  | none => none
  | some i =>
    let kraw := trimL (t.take i)
    let v := trimL (t.drop (i + 1))
    if kraw.head? = some dquoteC then
      match dqAux (kraw.drop 1) with
      | none => none
      | some k => (valueOf v).map (k, ·)
    else none

/-- Flow mapping `{ ... }` with double-quoted keys and scalar values. -/
def flowPairs (t : Str) : Option (List (Str × YValue)) :=
  if t.head? = some lbraceC && t.getLast? = some rbraceC then
    let inner := trimL (t.drop 1 |>.dropLast)
    if inner = [] then some []
    else (splitOnChar ',' inner).mapM flowItem?
  else none

/-- Modelled `serde_yaml` front end: flow mapping or block mapping lines,
tolerating a leading `---` document marker. -/
def yamlPairs (input : Str) : Option (List (Str × YValue)) :=
  let t := trimL input
  if t.head? = some lbraceC then flowPairs t
  else
    let ls := splitOnChar '\n' t
    let ls' := match ls with
      | l :: rest => if trimL l = strOf "---" then rest else ls
      | [] => ls
    linesToPairs ls'

/-! ## Binding pairs to the frontmatter schema -/

/-- The fixed-schema keys of `FrontmatterYaml`. -/
def knownKeys : List Str :=
  [strOf "title", strOf "date", strOf "tags", strOf "categories",
   strOf "updated", strOf "comments", strOf "layout", strOf "permalink",
   strOf "description", strOf "draft"]

/-- Model of `Frontmatter` in `markdown.rs` (isomorphic to `FrontmatterYaml`); the open
bag keeps source order, standing in for the `HashMap`. -/
structure Frontmatter where
  title : Str
  date : Str
  tags : List Str
  categories : List Str
  updated : Option Str
  comments : Option Bool
  layout : Option Str
  permalink : Option Str
  description : Option Str
  draft : Option Bool
  custom_fields : List (Str × YValue)
deriving DecidableEq

def lookupP (ps : List (Str × YValue)) (k : Str) : Option YValue :=
  match ps.find? (fun p => p.1 == k) with
  | some p => some p.2
  | none => none

/-- Required `String` field (serde: missing or non-string is an error). -/
def reqStr (ps : List (Str × YValue)) (k : Str) : Option Str :=
  match lookupP ps k with
  | some (.scal (.s v)) => some v
  | _ => none

/-- An `Option<String>` field (missing or explicit null ↦ `None`). -/
def optStr (ps : List (Str × YValue)) (k : Str) : Option (Option Str) :=
  match lookupP ps k with
  | none => some none
  | some (.scal (.s v)) => some (some v)
  | some (.scal .null) => some none
  | _ => none

/-- An `Option<bool>` field. -/
def optBool (ps : List (Str × YValue)) (k : Str) : Option (Option Bool) :=
  match lookupP ps k with
  | none => some none
  | some (.scal (.b v)) => some (some v)
  | some (.scal .null) => some none
  | _ => none

/-- A defaulted `Vec<String>` field. -/
def strListF (ps : List (Str × YValue)) (k : Str) : Option (List Str) :=
  match lookupP ps k with
  | none => some []
  | some (.seq items) =>
    items.mapM (fun it => match it with | .s v => some v | _ => none)
  | _ => none

/-- Bind a decoded mapping to `FrontmatterYaml`: known keys populate the fixed
schema, every remaining key lands verbatim in the open bag
(`#[serde(flatten)]`); duplicate keys are a decode error. -/
def bindPairs (ps : List (Str × YValue)) : Option Frontmatter :=
  if (ps.map Prod.fst).Nodup then
    match reqStr ps (strOf "title"), reqStr ps (strOf "date"),
          strListF ps (strOf "tags"), strListF ps (strOf "categories"),
          optStr ps (strOf "updated"), optBool ps (strOf "comments"),
          optStr ps (strOf "layout"), optStr ps (strOf "permalink"),
          optStr ps (strOf "description"), optBool ps (strOf "draft") with
    | some title, some date, some tags, some categories, some updated,
      some comments, some layout, some permalink, some description, some draft =>
      some { title, date, tags, categories, updated, comments, layout,
             permalink, description, draft,
             custom_fields := ps.filter (fun p => !(knownKeys.contains p.1)) }
    | _, _, _, _, _, _, _, _, _, _ => none
  else none

def yamlDecode (s : Str) : Option Frontmatter := (yamlPairs s).bind bindPairs

/-! ## Modelled TOML decoder (strategy 2 bridges TOML through JSON into the
same schema binding) -/

def tomlValue? (v : Str) : Option YValue :=
  if v = strOf "true" then some (.scal (.b true))
  else if v = strOf "false" then some (.scal (.b false))
  else if isCanonInt v then some (.scal (.i v))
  else if v.head? = some dquoteC then (dqAux (v.drop 1)).map (fun s => .scal (.s s))
  else if v.head? = some lbrackC && v.getLast? = some rbrackC then
    let inner := trimL (v.drop 1 |>.dropLast)
    if inner = [] then some (.seq [])
    else
      ((splitOnChar ',' inner).mapM (fun it =>
        let t := trimL it
        if t.head? = some dquoteC then dqAux (t.drop 1) else none)).map
        (fun l => .seq (l.map .s))
  else none

def tomlKeyOk (k : Str) : Bool :=
  !k.isEmpty && k.all (fun c => c.isAlphanum || c = '-' || c = '_')

def tomlLine? (t : Str) : Option (Str × YValue) :=
  match findSub ['='] t with
  | none => none
  | some i =>
    let k := trimEndL (t.take i)
    let v := trimL (t.drop (i + 1))
    if tomlKeyOk k then (tomlValue? v).map (k, ·) else none

def tomlPairs (input : Str) : Option (List (Str × YValue)) :=
  ((splitOnChar '\n' (trimL input)).filter (fun l => !(trimL l).isEmpty)).mapM
    (fun l => tomlLine? (trimL l))

def tomlDecode (s : Str) : Option Frontmatter := (tomlPairs s).bind bindPairs

/-! ## The parser (`MarkdownDocument::parse`) -/

structure MarkdownDocument where
  frontmatter : Frontmatter
  content : Str
deriving DecidableEq

def sepY : Str := strOf "---"
def sepT : Str := strOf "+++"

/-- Strategy 1: standard `---` block frontmatter (markdown.rs lines 105-114). -/
def strat1 (raw : Str) : Option MarkdownDocument :=
  if sepY.isPrefixOf raw then
    match splitnSep 3 sepY raw with
    | _ :: p1 :: p2 :: _ => (yamlDecode (trimL p1)).map fun fm => ⟨fm, trimL p2⟩
    | _ => none
  else none

/-- Strategy 2: `+++` TOML frontmatter (markdown.rs lines 117-130). -/
def strat2 (raw : Str) : Option MarkdownDocument :=
  if sepT.isPrefixOf raw then
    match splitnSep 3 sepT raw with
    | _ :: p1 :: p2 :: _ => (tomlDecode (trimL p1)).map fun fm => ⟨fm, trimL p2⟩
    | _ => none
  else none

/-- Brace-depth scan of `split_json_frontmatter` (markdown.rs lines 183-208). -/
def jsonEndAux (depth idx : Nat) : Str → Option Nat
  | [] => none
  | c :: rest =>
    if c = lbraceC then jsonEndAux (depth + 1) (idx + 1) rest
    else if c = rbraceC then
      if depth = 0 then jsonEndAux depth (idx + 1) rest
      else if depth = 1 then some idx
      else jsonEndAux (depth - 1) (idx + 1) rest
    else jsonEndAux depth (idx + 1) rest

def split_json_frontmatter (raw : Str) : Option (Str × Str) :=
  (jsonEndAux 0 0 raw).map fun idx =>
    (trimL (raw.take (idx + 1)), trimL (raw.drop (idx + 1)))

/-- Strategy 3: inline JSON object frontmatter (markdown.rs lines 133-139). -/
def strat3 (raw : Str) : Option MarkdownDocument :=
  if (trimStartL raw).head? = some lbraceC then
    match split_json_frontmatter raw with
    | some (fstr, content) => (yamlDecode fstr).map fun fm => ⟨fm, content⟩
    | none => none
  else none

/-- Strategy 4: headerless frontmatter before a later `\n---` marker
(markdown.rs lines 143-158). -/
def strat4 (raw : Str) : Option MarkdownDocument :=
  match findSub (strOf "\n---") raw with
  | none => none
  | some pos =>
    let fstr := trimL (raw.take pos)
    if hasSub (strOf "title:") fstr || hasSub (strOf "date:") fstr then
      (yamlDecode fstr).map fun fm =>
        ⟨fm, if pos + 4 < raw.length then trimL (raw.drop (pos + 4)) else []⟩
    else none

/-- The synthetic default frontmatter (markdown.rs lines 161-173). -/
def defaultFrontmatter : Frontmatter :=
  { title := strOf "Untitled Post", date := [], tags := [], categories := [],
    updated := none, comments := none, layout := none, permalink := none,
    description := none, draft := none, custom_fields := [] }

/-- Model of `MarkdownDocument::parse`: the ordered strategy chain; every return site
of the Rust function is `Ok`. -/
def MarkdownDocument.parse (raw : Str) : Except String (MarkdownDocument × Bool) :=
  match strat1 raw with
  | some doc => .ok (doc, false)
  | none =>
    match strat2 raw with
    | some doc => .ok (doc, false)
    | none =>
      match strat3 raw with
      | some doc => .ok (doc, false)
      | none =>
        match strat4 raw with
        | some doc => .ok (doc, false)
        | none => .ok (⟨defaultFrontmatter, raw⟩, true)

/-- The always-succeeding view of `parse` used by the `from_file` callers. -/
def parseD (raw : Str) : MarkdownDocument × Bool :=
  match MarkdownDocument.parse raw with
  | .ok p => p
  | .error _ => (⟨defaultFrontmatter, raw⟩, true)

/-! ## The serializer (`frontmatter_to_yaml` + `Post::to_markdown`)

serde_yaml's block emitter on the modelled value fragment: declared fields in
struct order, absent optional fields omitted (`skip_serializing_if`), the
flattened open bag last, empty sequences as `[]`, block sequence items as
unindented `- item` lines, strings quoted only when the plain form would be
misread. -/

def needsQuoteS (s : Str) : Bool :=
  s = strOf "true" || s = strOf "false" || s = strOf "null" || s = strOf "~" ||
  s = strOf "[]" || isCanonInt s || !plainOk s

def sqEscape : Str → Str
  | [] => []
  | c :: rest =>
    if c = squoteC then squoteC :: squoteC :: sqEscape rest else c :: sqEscape rest

def encStrS (s : Str) : Str :=
  if needsQuoteS s then squoteC :: (sqEscape s ++ [squoteC]) else s

def encScalar : YScalar → Str
  | .s v => encStrS v
  | .b true => strOf "true"
  | .b false => strOf "false"
  | .i d => d
  | .null => strOf "null"

def encPair (p : Str × YValue) : List Str :=
  match p.2 with
  | .seq [] => [p.1 ++ strOf ": []"]
  | .seq items => (p.1 ++ [':']) :: items.map (fun it => strOf "- " ++ encScalar it)
  | .scal v => [p.1 ++ strOf ": " ++ encScalar v]

/-- The emitted key/value sequence: `FrontmatterYaml`'s declared field order
with absent optionals skipped, then the open bag. -/
def pairsOfFm (fm : Frontmatter) : List (Str × YValue) :=
  [(strOf "title", .scal (.s fm.title)), (strOf "date", .scal (.s fm.date)),
   (strOf "tags", .seq (fm.tags.map .s)),
   (strOf "categories", .seq (fm.categories.map .s))]
  ++ (match fm.updated with
      | some v => [(strOf "updated", YValue.scal (.s v))] | none => [])
  ++ (match fm.comments with
      | some v => [(strOf "comments", YValue.scal (.b v))] | none => [])
  ++ (match fm.layout with
      | some v => [(strOf "layout", YValue.scal (.s v))] | none => [])
  ++ (match fm.permalink with
      | some v => [(strOf "permalink", YValue.scal (.s v))] | none => [])
  ++ (match fm.description with
      | some v => [(strOf "description", YValue.scal (.s v))] | none => [])
  ++ (match fm.draft with
      | some v => [(strOf "draft", YValue.scal (.b v))] | none => [])
  ++ fm.custom_fields

def frontmatter_to_yaml (fm : Frontmatter) : Str :=
  ((((pairsOfFm fm).map encPair).flatten).map (fun l => l ++ ['\n'])).flatten

/-- Model of `Post::to_markdown` (markdown.rs lines 359-363): the serializer of a
Document. -/
def to_markdown (d : MarkdownDocument) : Str :=
  strOf "---\n" ++ frontmatter_to_yaml d.frontmatter ++ strOf "---\n\n" ++ d.content

/-! ## Title extraction and Content Item construction -/

/-- Model of `extract_title_from_markdown` (markdown.rs lines 264-276). -/
def extract_title_from_markdown (content : Str) : Option Str :=
  go (splitOnChar '\n' content)
where
  go : List Str → Option Str
    | [] => none
    | l :: rest =>
      let t := trimL l
      if (strOf "# ").isPrefixOf t then
        let ttl := trimL (t.dropWhile (· == '#'))
        if ttl.isEmpty then go rest else some ttl
      else go rest

/-- A file of the modelled project tree: project-root-relative path segments,
raw text, and filesystem timestamps (creation time may be unavailable). -/
structure FsFile where
  path : List Str
  raw : Str
  ctime : Option Int
  mtime : Int
deriving DecidableEq

/-- The modelled filesystem of a project root: its directories (as segment
lists) and its files. -/
structure Fs where
  dirs : List (List Str)
  files : List FsFile
deriving DecidableEq

def dirEx (fs : Fs) (d : List Str) : Bool := fs.dirs.contains d

def contentDir : List Str := [strOf "content"]

def draftsDir : List Str := [strOf "content", strOf "drafts"]

def staticDir : List Str := [strOf "static"]

/-- Model of `HugoProject::get_posts_dir` (hugo.rs lines 72-83). -/
def get_posts_dir (fs : Fs) : List Str :=
  if dirEx fs (contentDir ++ [strOf "posts"]) then contentDir ++ [strOf "posts"]
  else if dirEx fs (contentDir ++ [strOf "post"]) then contentDir ++ [strOf "post"]
  else contentDir

/-- Model of `HugoProject::get_pages_dir` (hugo.rs lines 85-87). -/
def get_pages_dir : List Str := contentDir

/-- Model of the walk `walkdir::WalkDir::new(dir).max_depth(d)` restricted to files. -/
def walk (fs : Fs) (dir : List Str) (depth : Nat) : List FsFile :=
  fs.files.filter (fun f => dir.isPrefixOf f.path && f.path.length ≤ dir.length + depth)

def fileNameOf (f : FsFile) : Str := f.path.getLastD []

/-- Rust `Path::file_stem` / `Path::extension` on a file name. -/
def extStem (name : Str) : Str × Option Str :=
  match findSub ['.'] name.reverse with
  | none => (name, none)
  | some i =>
    let stemLen := name.length - i - 1
    if stemLen = 0 then (name, none)
    else (name.take stemLen, some (name.drop (stemLen + 1)))

def extOf (f : FsFile) : Option Str := (extStem (fileNameOf f)).2

def stemOf (f : FsFile) : Str := (extStem (fileNameOf f)).1

def isMdF (f : FsFile) : Bool := extOf f == some (strOf "md")

/-- Model of `Post` in markdown.rs (id is the project-root-relative path). -/
structure Post where
  id : List Str
  title : Str
  date : Str
  content : Str
  frontmatter : Frontmatter
  createdAt : Int
  modifiedAt : Int
deriving DecidableEq

/-- Models of `Page` and `Draft` in markdown.rs, which share this shape (no top-level date). -/
structure Page where
  id : List Str
  title : Str
  content : Str
  frontmatter : Frontmatter
  createdAt : Int
  modifiedAt : Int
deriving DecidableEq

structure Draft where
  id : List Str
  title : Str
  content : Str
  frontmatter : Frontmatter
  createdAt : Int
  modifiedAt : Int
deriving DecidableEq

/-- Model of `Post::from_file` (markdown.rs lines 292-357).  `fmt` stands for chrono's
RFC 3339 rendering of the modified timestamp (an external library call). -/
def Post.from_file (fmt : Int → Str) (f : FsFile) : Post :=
  let pd := parseD f.raw
  let doc := pd.1
  let hadNo := pd.2
  let title :=
    if doc.frontmatter.title = strOf "Untitled Post" then
      (extract_title_from_markdown doc.content).getD (stemOf f)
    else doc.frontmatter.title
  let date :=
    if hadNo || doc.frontmatter.date.isEmpty then fmt f.mtime
    else doc.frontmatter.date
  { id := f.path, title := title, date := date, content := doc.content,
    frontmatter := { doc.frontmatter with title := title, date := date },
    createdAt := f.ctime.getD f.mtime, modifiedAt := f.mtime }

/-- Model of `Page::from_file` (commands.rs lines 985-1025): no title or date
backfill. -/
def Page.from_file (f : FsFile) : Page :=
  let doc := (parseD f.raw).1
  { id := f.path, title := doc.frontmatter.title, content := doc.content,
    frontmatter := doc.frontmatter,
    createdAt := f.ctime.getD f.mtime, modifiedAt := f.mtime }

/-- Model of `Draft::from_file` (commands.rs lines 1027-1067): no title or date
backfill. -/
def Draft.from_file (f : FsFile) : Draft :=
  let doc := (parseD f.raw).1
  { id := f.path, title := doc.frontmatter.title, content := doc.content,
    frontmatter := doc.frontmatter,
    createdAt := f.ctime.getD f.mtime, modifiedAt := f.mtime }

/-- Rust's stable `sort_by(|a, b| b.modified_at.cmp(&a.modified_at))`,
modelled by the (stable) insertion sort on the same descending key. -/
def sortDesc {α : Type} (key : α → Int) (l : List α) : List α :=
  List.insertionSort (fun a b => key b ≤ key a) l

/-- The per-file body of the `list_posts` walk loop (commands.rs
lines 124-141). -/
def pickPost (fmt : Int → Str) (fs : Fs) (f : FsFile) : Option Post :=
  if isMdF f then
    if fileNameOf f = strOf "_index.md" then none
    else if dirEx fs draftsDir && draftsDir.isPrefixOf f.path then none
    else
      let post := Post.from_file fmt f
      if post.frontmatter.draft.getD false then none else some post
  else none

/-- Model of `list_posts` (commands.rs lines 108-148). -/
def list_posts (fmt : Int → Str) (fs : Fs) : List Post :=
  if !dirEx fs (get_posts_dir fs) then []
  else sortDesc (·.modifiedAt) ((walk fs (get_posts_dir fs) 4).filterMap (pickPost fmt fs))

/-- The per-file body of the `list_pages` walk loop (commands.rs
lines 387-409). -/
def pickPage (fs : Fs) (f : FsFile) : Option Page :=
  if !isMdF f then none
  else if ((get_posts_dir fs ≠ get_pages_dir) && (get_posts_dir fs).isPrefixOf f.path) ||
          draftsDir.isPrefixOf f.path then none
  else
    if ¬ (fileNameOf f = strOf "index.md" ∨ fileNameOf f = strOf "_index.md") ∧
       ¬ (f.path.dropLast = get_pages_dir) then none
    else
      let page := Page.from_file f
      if page.frontmatter.draft.getD false then none else some page

/-- Model of `list_pages` (commands.rs lines 368-415). -/
def list_pages (fs : Fs) : List Page :=
  if !dirEx fs get_pages_dir then []
  else sortDesc (·.modifiedAt) ((walk fs get_pages_dir 4).filterMap (pickPage fs))

/-- The per-file body of the `list_drafts` walk loop (commands.rs
lines 500-511). -/
def pickDraft (fs : Fs) (f : FsFile) : Option Draft :=
  if isMdF f then
    let isDraftPath := dirEx fs draftsDir && draftsDir.isPrefixOf f.path
    let draft := Draft.from_file f
    if draft.frontmatter.draft.getD false || isDraftPath then some draft else none
  else none

/-- Model of `list_drafts` (commands.rs lines 484-517). -/
def list_drafts (fs : Fs) : List Draft :=
  if !dirEx fs contentDir then []
  else sortDesc (·.modifiedAt) ((walk fs contentDir 4).filterMap (pickDraft fs))

/-! ## Relative path validation (`validate_relative_path`, commands.rs
lines 789-809), modelled for Unix path semantics where `Component::Prefix`
cannot occur. -/

inductive PComp where
  | curDir
  | parentDir
  | rootDir
  | normal (seg : Str)
deriving DecidableEq

/-- Rust `Path::is_absolute` on Unix: the path has a root. -/
def isAbsolutePath (s : Str) : Bool := s.head? = some '/'

/-- Rust `Path::components` on Unix: repeated separators collapse, `.`
normalizes away except as the leading component of a relative path. -/
def pathComponents (s : Str) : List PComp :=
  let segs := (splitOnChar '/' s).filter (fun seg => !seg.isEmpty)
  let body := segs.map (fun seg =>
    if seg = strOf "." then PComp.curDir
    else if seg = strOf ".." then PComp.parentDir
    else PComp.normal seg)
  let dropCur := fun (l : List PComp) => l.filter (· ≠ PComp.curDir)
  if isAbsolutePath s then PComp.rootDir :: dropCur body
  else
    match body with
    | PComp.curDir :: rest => PComp.curDir :: dropCur rest
    | l => dropCur l

/-- A component `validate_relative_path` lets through. -/
def compOk : PComp → Bool
  | .normal _ => true
  | .curDir => true
  | .parentDir => false
  | .rootDir => false

/-- Model of `validate_relative_path` (commands.rs lines 789-809): empty input passes,
absolute paths and paths with parent/root components are rejected; on success
the input path itself is returned (`to_path_buf`). -/
def validate_relative_path (relative : Str) : Except String Str :=
  if relative.isEmpty then .ok []
  else if isAbsolutePath relative then .error (strOf "Path must be relative").asString
  else if (pathComponents relative).all compOk then .ok relative
  else .error (strOf "Path must not contain parent or root segments").asString

/-- Path resolution over components: what `base.join(p)` can reach after the
filesystem resolves `.` and `..`. -/
def resolveComps (base : List Str) : List PComp → List Str
  | [] => base
  | .normal seg :: rest => resolveComps (base ++ [seg]) rest
  | .curDir :: rest => resolveComps base rest
  | .parentDir :: rest => resolveComps base.dropLast rest
  | .rootDir :: rest => resolveComps [] rest

/-- The normal segments of a component list. -/
def normalSegs : List PComp → List Str
  | [] => []
  | .normal seg :: rest => seg :: normalSegs rest
  | _ :: rest => normalSegs rest

/-! ## Statement-level predicates and concrete fixtures -/

/-- The decoded draft flag of a file, as the listings read it. -/
def draftFlagOf (f : FsFile) : Bool := (parseD f.raw).1.frontmatter.draft.getD false

/-- The file lies under the drafts directory. -/
def underDrafts (p : List Str) : Bool := draftsDir.isPrefixOf p

/-- Well-formed filesystem snapshot: every proper prefix of a file's path is a
directory that exists. -/
def FsWF (fs : Fs) : Prop :=
  ∀ f ∈ fs.files, ∀ n, n < f.path.length → f.path.take n ∈ fs.dirs

instance : DecidablePred FsWF := fun fs => by
  unfold FsWF; infer_instance

/-- A date-format stand-in for witnesses (the claims never inspect the text
chrono produces). -/
def exFmt : Int → Str := fun t => 'T' :: strOf (toString t)

/-- C1 failing input: a headerless document whose date value contains `---`. -/
def c1Input : Str := strOf "title: A\ndate: x---y\n---\nBody"

def c1Doc : MarkdownDocument := (parseD c1Input).1

def c1Redoc : MarkdownDocument := (parseD (to_markdown c1Doc)).1

/-- C3 witness input: the spec's primary block example. -/
def c3raw : Str := strOf "---\ntitle: \"Hello\"\ndate: \"2024-01-01 10:00:00\"\n---\nBody"

def c3p1 : Str := strOf "\ntitle: \"Hello\"\ndate: \"2024-01-01 10:00:00\"\n"

def c3p2 : Str := strOf "\nBody"

def c3fm : Frontmatter :=
  { title := strOf "Hello", date := strOf "2024-01-01 10:00:00", tags := [],
    categories := [], updated := none, comments := none, layout := none,
    permalink := none, description := none, draft := none, custom_fields := [] }

/-- C4 witness input: the spec's headerless example. -/
def c4raw : Str := strOf "title: \"Alt\"\ndate: \"2024-01-02\"\n---\nAlt body"

def c4fm : Frontmatter :=
  { title := strOf "Alt", date := strOf "2024-01-02", tags := [],
    categories := [], updated := none, comments := none, layout := none,
    permalink := none, description := none, draft := none, custom_fields := [] }

/-- C5 example tree: `content/posts/a.md` (draft=false),
`content/drafts/b.md` (draft=false), `content/posts/c.md` (draft=true). -/
def c5a : FsFile :=
  ⟨[strOf "content", strOf "posts", strOf "a.md"],
   strOf "---\ntitle: A\ndate: 2024-01-01\ndraft: false\n---\nA body", some 30, 30⟩

def c5b : FsFile :=
  ⟨[strOf "content", strOf "drafts", strOf "b.md"],
   strOf "---\ntitle: B\ndate: 2024-01-02\ndraft: false\n---\nB body", some 20, 20⟩

def c5c : FsFile :=
  ⟨[strOf "content", strOf "posts", strOf "c.md"],
   strOf "---\ntitle: C\ndate: 2024-01-03\ndraft: true\n---\nC body", some 10, 10⟩

def exC5Fs : Fs :=
  ⟨[[], [strOf "content"], [strOf "content", strOf "posts"],
    [strOf "content", strOf "drafts"]],
   [c5a, c5b, c5c]⟩

/-- C6 counterexample tree: a page-bundle file `content/posts/sub/index.md`. -/
def c6File : FsFile :=
  ⟨[strOf "content", strOf "posts", strOf "sub", strOf "index.md"],
   strOf "---\ntitle: Bundle\ndate: 2024-01-05\n---\nBody", some 7, 7⟩

def exC6Fs : Fs :=
  ⟨[[], [strOf "content"], [strOf "content", strOf "posts"],
    [strOf "content", strOf "posts", strOf "sub"]],
   [c6File]⟩

/-- C8 counterexample file: frontmatter-less page `content/b.md`. -/
def c8File : FsFile := ⟨[strOf "content", strOf "b.md"], strOf "Just text", some 5, 7⟩

/-- C8/C9 witness file: frontmatter-less post whose body opens with a
heading. -/
def c8HFile : FsFile :=
  ⟨[strOf "content", strOf "posts", strOf "h.md"], strOf "# My Title\nBody", some 5, 9⟩

/-- C9 witness input: a successful parse with one open-bag key. -/
def c9raw : Str := strOf "---\ntitle: A\ndate: 2024-01-01\nfoo: bar\n---\nx"

/-! ## Helper lemmas about the parser -/

theorem parse_total (raw : Str) : ∃ p, MarkdownDocument.parse raw = .ok p := by
  unfold MarkdownDocument.parse
  cases strat1 raw with
  | some d => exact ⟨_, rfl⟩
  | none =>
    cases strat2 raw with
    | some d => exact ⟨_, rfl⟩
    | none =>
      cases strat3 raw with
      | some d => exact ⟨_, rfl⟩
      | none =>
        cases strat4 raw with
        | some d => exact ⟨_, rfl⟩
        | none => exact ⟨_, rfl⟩

theorem parse_isOk (raw : Str) : MarkdownDocument.parse raw = .ok (parseD raw) := by
  obtain ⟨p, hp⟩ := parse_total raw
  rw [hp]; unfold parseD; rw [hp]

theorem parse_s1 {raw : Str} {d : MarkdownDocument} (h : strat1 raw = some d) :
    MarkdownDocument.parse raw = .ok (d, false) := by
  unfold MarkdownDocument.parse; rw [h]

theorem parse_s4 {raw : Str} {d : MarkdownDocument}
    (h1 : strat1 raw = none) (h2 : strat2 raw = none) (h3 : strat3 raw = none)
    (h4 : strat4 raw = some d) :
    MarkdownDocument.parse raw = .ok (d, false) := by
  unfold MarkdownDocument.parse; rw [h1, h2, h3, h4]

theorem parse_dflt {raw : Str}
    (h1 : strat1 raw = none) (h2 : strat2 raw = none) (h3 : strat3 raw = none)
    (h4 : strat4 raw = none) :
    MarkdownDocument.parse raw = .ok (⟨defaultFrontmatter, raw⟩, true) := by
  unfold MarkdownDocument.parse; rw [h1, h2, h3, h4]

theorem bindPairs_custom {ps : List (Str × YValue)} {fm : Frontmatter}
    (h : bindPairs ps = some fm) :
    fm.custom_fields = ps.filter (fun p => !(knownKeys.contains p.1)) := by
  unfold bindPairs at h
  split at h
  · split at h
    · cases h; rfl
    · cases h
  · cases h

theorem bindPairs_not_known {ps : List (Str × YValue)} {fm : Frontmatter}
    (h : bindPairs ps = some fm) : ∀ p ∈ fm.custom_fields, ¬ p.1 ∈ knownKeys := by
  rw [bindPairs_custom h]
  intro p hp hmem
  have h2 := (List.mem_filter.mp hp).2
  have h3 : knownKeys.contains p.1 = true := List.elem_eq_true_of_mem hmem
  rw [h3] at h2
  cases h2

theorem yamlDecode_not_known {s : Str} {fm : Frontmatter}
    (h : yamlDecode s = some fm) : ∀ p ∈ fm.custom_fields, ¬ p.1 ∈ knownKeys := by
  unfold yamlDecode at h
  cases hp : yamlPairs s with
  | none => rw [hp] at h; cases h
  | some ps => rw [hp] at h; exact bindPairs_not_known h

theorem tomlDecode_not_known {s : Str} {fm : Frontmatter}
    (h : tomlDecode s = some fm) : ∀ p ∈ fm.custom_fields, ¬ p.1 ∈ knownKeys := by
  unfold tomlDecode at h
  cases hp : tomlPairs s with
  | none => rw [hp] at h; cases h
  | some ps => rw [hp] at h; exact bindPairs_not_known h

theorem strat1_fm {raw : Str} {d : MarkdownDocument} (h : strat1 raw = some d) :
    ∃ s, yamlDecode s = some d.frontmatter := by
  unfold strat1 at h
  split at h
  · split at h
    · obtain ⟨fm, hy, hd⟩ := Option.map_eq_some'.mp h
      cases hd
      exact ⟨_, hy⟩
    · cases h
  · cases h

theorem strat2_fm {raw : Str} {d : MarkdownDocument} (h : strat2 raw = some d) :
    ∃ s, tomlDecode s = some d.frontmatter := by
  unfold strat2 at h
  split at h
  · split at h
    · obtain ⟨fm, hy, hd⟩ := Option.map_eq_some'.mp h
      cases hd
      exact ⟨_, hy⟩
    · cases h
  · cases h

theorem strat3_fm {raw : Str} {d : MarkdownDocument} (h : strat3 raw = some d) :
    ∃ s, yamlDecode s = some d.frontmatter := by
  unfold strat3 at h
  split at h
  · split at h
    · obtain ⟨fm, hy, hd⟩ := Option.map_eq_some'.mp h
      cases hd
      exact ⟨_, hy⟩
    · cases h
  · cases h

theorem strat4_fm {raw : Str} {d : MarkdownDocument} (h : strat4 raw = some d) :
    ∃ s, yamlDecode s = some d.frontmatter := by
  simp only [strat4] at h
  split at h
  · cases h
  · split at h
    · obtain ⟨fm, hy, hd⟩ := Option.map_eq_some'.mp h
      cases hd
      exact ⟨_, hy⟩
    · cases h

/-! ## Claim theorems -/

/-- C1 (code bug).  The claimed round trip
`parse(serialize(parse(t).Document)).Document = parse(t).Document` fails at
`t = "title: A\ndate: x---y\n---\nBody"`, which parses successfully
(`usedDefaultFrontmatter = false`) with date `"x---y"`: re-parsing the
serialization splits at the first `---` occurrence inside the emitted date
value, so the date collapses to `"x"` and the rest of the frontmatter block
leaks into the body. -/
theorem c1_roundtrip_fails_on_marker_in_value :
    MarkdownDocument.parse c1Input = .ok (c1Doc, false) ∧
    MarkdownDocument.parse (to_markdown c1Doc) = .ok (c1Redoc, false) ∧
    c1Doc.frontmatter.date = strOf "x---y" ∧
    c1Doc.content = strOf "Body" ∧
    c1Redoc.frontmatter.date = strOf "x" ∧
    c1Redoc ≠ c1Doc := by
  refine ⟨by rw [parse_isOk]; exact congrArg Except.ok (by decide),
          by rw [parse_isOk]; exact congrArg Except.ok (by decide),
          by decide, by decide, by decide, by decide⟩

/-- C2.  `parse` never fails: every input yields an `Ok` document; when no
strategy succeeds the synthetic default is returned — title "Untitled Post",
empty date, empty tag/category lists, no optional fields, empty open bag,
body equal to the whole raw input and `usedDefaultFrontmatter = true`; in
particular `"Just text"` yields that default with body "Just text". -/
theorem c2_parse_never_fails :
    (∀ raw : Str, ∃ p, MarkdownDocument.parse raw = .ok p) ∧
    (∀ raw : Str, strat1 raw = none → strat2 raw = none → strat3 raw = none →
      strat4 raw = none →
      MarkdownDocument.parse raw =
        .ok (⟨{ title := strOf "Untitled Post", date := [], tags := [],
                categories := [], updated := none, comments := none,
                layout := none, permalink := none, description := none,
                draft := none, custom_fields := [] }, raw⟩, true)) ∧
    MarkdownDocument.parse (strOf "Just text") =
      .ok (⟨defaultFrontmatter, strOf "Just text"⟩, true) := by
  refine ⟨parse_total, fun raw h1 h2 h3 h4 => parse_dflt h1 h2 h3 h4,
          parse_dflt (by decide) (by decide) (by decide) (by decide)⟩

/-- C2 witness: the theorem applied at `"Just text"`, whose four strategies
all fail. -/
theorem c2_parse_never_fails_witness :
    MarkdownDocument.parse (strOf "Just text") =
      .ok (⟨{ title := strOf "Untitled Post", date := [], tags := [],
              categories := [], updated := none, comments := none,
              layout := none, permalink := none, description := none,
              draft := none, custom_fields := [] }, strOf "Just text"⟩, true) :=
  c2_parse_never_fails.2.1 (strOf "Just text")
    (by decide) (by decide) (by decide) (by decide)

/-- C3.  Any input that begins with `---` and whose middle section decodes as
a frontmatter mapping is resolved by the primary block strategy: the result
is that strategy's document, with `usedDefaultFrontmatter = false`, whatever
the rest of the text contains (so the inline-object strategy is never
consulted first). -/
theorem c3_primary_strategy_precedence (raw p0 p1 p2 : Str) (rest : List Str)
    (fm : Frontmatter)
    (hpre : sepY.isPrefixOf raw = true)
    (hsplit : splitnSep 3 sepY raw = p0 :: p1 :: p2 :: rest)
    (hdec : yamlDecode (trimL p1) = some fm) :
    MarkdownDocument.parse raw = .ok (⟨fm, trimL p2⟩, false) := by
  have h1 : strat1 raw = some ⟨fm, trimL p2⟩ := by
    unfold strat1
    rw [hpre]
    simp only [if_true, hsplit, hdec, Option.map_some']
  exact parse_s1 h1

/-- C3 witness: the spec's primary block example; its body could even contain
a brace-delimited object without changing the outcome. -/
theorem c3_primary_strategy_precedence_witness :
    splitnSep 3 sepY c3raw = [[], c3p1, c3p2] ∧
    MarkdownDocument.parse c3raw = .ok (⟨c3fm, trimL c3p2⟩, false) :=
  ⟨by decide,
   c3_primary_strategy_precedence c3raw [] c3p1 c3p2 [] c3fm
     (by decide) (by decide) (by decide)⟩

/-- C4.  When strategies 1-3 all fail and the input contains a `\n---`
occurrence, the text before the first such occurrence (trimmed) is decoded
only if it contains `title:` or `date:`; if the gate rejects, the parse falls
to the synthetic default, and if the gate admits and the decode succeeds, the
body is the text after the marker, trimmed, with
`usedDefaultFrontmatter = false`. -/
theorem c4_headerless_gate (raw : Str) (pos : Nat)
    (h1 : strat1 raw = none) (h2 : strat2 raw = none) (h3 : strat3 raw = none)
    (hfind : findSub (strOf "\n---") raw = some pos) :
    ((hasSub (strOf "title:") (trimL (raw.take pos)) ||
      hasSub (strOf "date:") (trimL (raw.take pos))) = false →
      MarkdownDocument.parse raw =
        .ok (⟨defaultFrontmatter, raw⟩, true)) ∧
    (∀ fm : Frontmatter,
      (hasSub (strOf "title:") (trimL (raw.take pos)) ||
       hasSub (strOf "date:") (trimL (raw.take pos))) = true →
      yamlDecode (trimL (raw.take pos)) = some fm →
      MarkdownDocument.parse raw =
        .ok (⟨fm, if pos + 4 < raw.length then trimL (raw.drop (pos + 4))
                  else []⟩, false)) := by
  constructor
  · intro hgate
    have h4 : strat4 raw = none := by
      simp only [strat4, hfind, hgate]
      simp
    exact parse_dflt h1 h2 h3 h4
  · intro fm hgate hdec
    have h4 : strat4 raw =
        some ⟨fm, if pos + 4 < raw.length then trimL (raw.drop (pos + 4)) else []⟩ := by
      simp only [strat4, hfind, hgate, hdec, if_true, Option.map_some']
    exact parse_s4 h1 h2 h3 h4

/-- C4 witness: the spec's headerless example, gated in by `title:` and
decoding successfully. -/
theorem c4_headerless_gate_witness :
    MarkdownDocument.parse c4raw =
      .ok (⟨c4fm, if 31 + 4 < c4raw.length then trimL (c4raw.drop (31 + 4))
                  else []⟩, false) :=
  (c4_headerless_gate c4raw 31 (by decide) (by decide) (by decide) (by decide)).2
    c4fm (by decide) (by decide)

/-- C9.  Every frontmatter produced by a successful (non-default) parse keeps
the fixed-schema keys out of the open bag: known keys bind to the schema
first and only the remaining keys populate `custom_fields`. -/
theorem c9_fixed_keys_never_in_bag (raw : Str) (doc : MarkdownDocument)
    (h : MarkdownDocument.parse raw = .ok (doc, false)) :
    ∀ p ∈ doc.frontmatter.custom_fields, ¬ p.1 ∈ knownKeys := by
  unfold MarkdownDocument.parse at h
  cases h1 : strat1 raw with
  | some d =>
    rw [h1] at h
    cases h
    obtain ⟨s, hs⟩ := strat1_fm h1
    exact yamlDecode_not_known hs
  | none =>
    rw [h1] at h
    cases h2 : strat2 raw with
    | some d =>
      rw [h2] at h
      cases h
      obtain ⟨s, hs⟩ := strat2_fm h2
      exact tomlDecode_not_known hs
    | none =>
      rw [h2] at h
      cases h3 : strat3 raw with
      | some d =>
        rw [h3] at h
        cases h
        obtain ⟨s, hs⟩ := strat3_fm h3
        exact yamlDecode_not_known hs
      | none =>
        rw [h3] at h
        cases h4 : strat4 raw with
        | some d =>
          rw [h4] at h
          cases h
          obtain ⟨s, hs⟩ := strat4_fm h4
          exact yamlDecode_not_known hs
        | none =>
          rw [h4] at h
          cases h

/-- C9 witness: at a concrete parse with open-bag key `foo`, the theorem
rules the fixed key `title` out of the bag. -/
theorem c9_fixed_keys_never_in_bag_witness :
    ¬ (strOf "title", YValue.scal (.s (strOf "A"))) ∈
        (parseD c9raw).1.frontmatter.custom_fields := by
  intro hmem
  exact c9_fixed_keys_never_in_bag c9raw (parseD c9raw).1
    (by rw [parse_isOk c9raw]; exact congrArg Except.ok (by decide))
    _ hmem (by decide)

/-! ## Sortedness of the listings (C7) -/

theorem chain_sortDesc {α : Type} (key : α → Int) (l : List α) :
    List.Chain' (fun a b => key b ≤ key a) (sortDesc key l) := by
  haveI : IsTotal α (fun a b => key b ≤ key a) := ⟨fun a b => le_total (key b) (key a)⟩
  haveI : IsTrans α (fun a b => key b ≤ key a) :=
    ⟨fun _ _ _ h1 h2 => le_trans h2 h1⟩
  exact (List.sorted_insertionSort _ _).chain'

theorem perm_sortDesc {α : Type} (key : α → Int) (l : List α) :
    (sortDesc key l).Perm l :=
  List.perm_insertionSort _ l

/-- C7.  Every listing is sorted by `modifiedAt` descending: each adjacent
pair of returned items is ordered newest-first. -/
theorem c7_listings_sorted_by_modified_desc (fmt : Int → Str) (fs : Fs) :
    List.Chain' (fun a b : Post => b.modifiedAt ≤ a.modifiedAt) (list_posts fmt fs) ∧
    List.Chain' (fun a b : Page => b.modifiedAt ≤ a.modifiedAt) (list_pages fs) ∧
    List.Chain' (fun a b : Draft => b.modifiedAt ≤ a.modifiedAt) (list_drafts fs) := by
  refine ⟨?_, ?_, ?_⟩
  · unfold list_posts
    split
    · exact List.chain'_nil
    · exact chain_sortDesc _ _
  · unfold list_pages
    split
    · exact List.chain'_nil
    · exact chain_sortDesc _ _
  · unfold list_drafts
    split
    · exact List.chain'_nil
    · exact chain_sortDesc _ _

/-! ## Title/date backfill (C8) -/

theorem parseD_of_parse {raw : Str} {doc : MarkdownDocument} {hadNo : Bool}
    (h : MarkdownDocument.parse raw = .ok (doc, hadNo)) :
    parseD raw = (doc, hadNo) := by
  have h2 := parse_isOk raw
  rw [h] at h2
  exact (Except.ok.injEq _ _).mp h2.symm

/-- C8 (amended).  Backfill happens only in `Post::from_file`: when the bound
title is the sentinel "Untitled Post" the post title becomes the first
heading title of the body (a line whose trimmed form starts with `# ` and is
nonempty after stripping the marks), else the file stem; the date is
synthesized from the modified timestamp when the parse was the default or the
date is empty.  `Page::from_file` and `Draft::from_file` copy the parsed
frontmatter verbatim, with no backfill at all. -/
theorem c8_backfill_only_in_post_construction (fmt : Int → Str) (f : FsFile)
    (doc : MarkdownDocument) (hadNo : Bool)
    (h : MarkdownDocument.parse f.raw = .ok (doc, hadNo)) :
    (Post.from_file fmt f).title =
      (if doc.frontmatter.title = strOf "Untitled Post" then
        (extract_title_from_markdown doc.content).getD (stemOf f)
      else doc.frontmatter.title) ∧
    (Post.from_file fmt f).date =
      (if hadNo || doc.frontmatter.date.isEmpty then fmt f.mtime
       else doc.frontmatter.date) ∧
    (Page.from_file f).title = doc.frontmatter.title ∧
    (Page.from_file f).frontmatter = doc.frontmatter ∧
    (Draft.from_file f).title = doc.frontmatter.title ∧
    (Draft.from_file f).frontmatter = doc.frontmatter := by
  have hd : parseD f.raw = (doc, hadNo) := parseD_of_parse h
  unfold Post.from_file Page.from_file Draft.from_file
  rw [hd]
  exact ⟨rfl, rfl, rfl, rfl, rfl, rfl⟩

/-- C8 witness: a post file with default frontmatter and a leading heading
gets its title from the heading and its date from the formatted timestamp. -/
theorem c8_backfill_only_in_post_construction_witness :
    (Post.from_file exFmt c8HFile).title = strOf "My Title" ∧
    (Post.from_file exFmt c8HFile).date = exFmt 9 := by
  have h := c8_backfill_only_in_post_construction exFmt c8HFile
    (parseD c8HFile.raw).1 (parseD c8HFile.raw).2 (by rw [parse_isOk])
  refine ⟨?_, ?_⟩
  · rw [h.1]; decide
  · rw [h.2.1]; decide

/-- C8 counterexample: the claim also asserts the backfill for Pages and
Drafts, but `Page::from_file` keeps the sentinel title and empty date for
`content/b.md` with body "Just text" (the claim predicts title "b" and a
synthesized date). -/
theorem c8_page_not_backfilled_counterexample :
    (Page.from_file c8File).title = strOf "Untitled Post" ∧
    (Page.from_file c8File).frontmatter.date = [] ∧
    stemOf c8File = strOf "b" ∧
    strOf "Untitled Post" ≠ strOf "b" ∧
    exFmt c8File.mtime ≠ [] ∧
    (Draft.from_file c8File).title = strOf "Untitled Post" := by
  refine ⟨by decide, by decide, by decide, by decide, by decide, by decide⟩

/-! ## Classification (C5, C6) -/

theorem mem_of_walk {fs : Fs} {dir : List Str} {depth : Nat} {f : FsFile}
    (h : f ∈ walk fs dir depth) :
    f ∈ fs.files ∧ dir.isPrefixOf f.path = true ∧
      f.path.length ≤ dir.length + depth := by
  unfold walk at h
  have h2 := List.mem_filter.mp h
  refine ⟨h2.1, ?_, ?_⟩
  · have := h2.2
    simp only [Bool.and_eq_true] at this
    exact this.1
  · have := h2.2
    simp only [Bool.and_eq_true, decide_eq_true_eq] at this
    exact this.2

theorem dirEx_of_mem {fs : Fs} {d : List Str} (h : d ∈ fs.dirs) :
    dirEx fs d = true :=
  List.elem_eq_true_of_mem h

/-- Under a well-formed snapshot, a markdown file lying under a directory
whose own name is not a markdown name forces that directory to exist. -/
theorem dirEx_of_md_under {fs : Fs} {f : FsFile} (d : List Str)
    (hwf : FsWF fs) (hf : f ∈ fs.files) (hmd : isMdF f = true)
    (hnm : ((extStem (d.getLastD [])).2 == some (strOf "md")) = false)
    (hpre : d.isPrefixOf f.path = true) : dirEx fs d = true := by
  obtain ⟨t, ht⟩ := List.isPrefixOf_iff_prefix.mp hpre
  cases t with
  | nil =>
    rw [List.append_nil] at ht
    exfalso
    unfold isMdF extOf fileNameOf at hmd
    rw [← ht] at hmd
    rw [hmd] at hnm
    cases hnm
  | cons x xs =>
    have hlen : d.length < f.path.length := by
      rw [← ht, List.length_append, List.length_cons]
      omega
    have h2 := hwf f hf d.length hlen
    have h3 : f.path.take d.length = d := by
      rw [← ht]
      exact List.take_left d (x :: xs)
    rw [h3] at h2
    exact dirEx_of_mem h2

theorem pickPost_some {fmt : Int → Str} {fs : Fs} {f : FsFile} {p : Post}
    (h : pickPost fmt fs f = some p) :
    isMdF f = true ∧ fileNameOf f ≠ strOf "_index.md" ∧
    (dirEx fs draftsDir && draftsDir.isPrefixOf f.path) = false ∧
    p.frontmatter.draft.getD false = false ∧ p = Post.from_file fmt f := by
  simp only [pickPost] at h
  split_ifs at h with h1 h2 h3 h4
  injection h with he
  subst he
  refine ⟨h1, h2, ?_, ?_, rfl⟩
  · exact Bool.not_eq_true _ ▸ h3
  · exact Bool.not_eq_true _ ▸ h4

/-- C5.  `list_posts` excludes every file under the drafts directory and
every file with a true draft flag; `list_drafts` includes a walked markdown
file exactly when it is under the drafts directory or its flag is true
(union).  On the three-file example the Post listing is exactly `a.md` and
the Draft listing exactly `{b.md, c.md}`. -/
theorem c5_draft_classification :
    (∀ (fmt : Int → Str) (fs : Fs), FsWF fs →
      (∀ p ∈ list_posts fmt fs,
        underDrafts p.id = false ∧ p.frontmatter.draft.getD false = false) ∧
      ((list_drafts fs).map (·.id)).Perm
        (((walk fs contentDir 4).filter
            (fun f => isMdF f && (underDrafts f.path || draftFlagOf f))).map
          (·.path))) ∧
    (list_posts exFmt exC5Fs).map (·.id) =
      [[strOf "content", strOf "posts", strOf "a.md"]] ∧
    (list_drafts exC5Fs).map (·.id) =
      [[strOf "content", strOf "drafts", strOf "b.md"],
       [strOf "content", strOf "posts", strOf "c.md"]] := by
  refine ⟨fun fmt fs hwf => ⟨?_, ?_⟩, by decide, by decide⟩
  · intro p hp
    unfold list_posts at hp
    split at hp
    · cases hp
    · have hp2 := (perm_sortDesc _ _).mem_iff.mp hp
      obtain ⟨f, hfw, hpick⟩ := List.mem_filterMap.mp hp2
      obtain ⟨hmd, _, hdr, hfl, hpf⟩ := pickPost_some hpick
      have hid : p.id = f.path := by rw [hpf]; rfl
      constructor
      · by_contra hne
        have hu : underDrafts p.id = true := by
          cases hq : underDrafts p.id
          · exact absurd hq hne
          · rfl
        unfold underDrafts at hu
        rw [hid] at hu
        have hex : dirEx fs draftsDir = true :=
          dirEx_of_md_under draftsDir hwf (mem_of_walk hfw).1 hmd (by decide) hu
        rw [hex, hu] at hdr
        cases hdr
      · exact hfl
  · unfold list_drafts
    split
    · rename_i hnc
      have hnc2 : dirEx fs contentDir = false := by simpa using hnc
      have hnil :
          ((walk fs contentDir 4).filter
            (fun f => isMdF f && (underDrafts f.path || draftFlagOf f))) = [] := by
        rw [List.filter_eq_nil_iff]
        intro f hfw hcond
        rw [Bool.and_eq_true] at hcond
        have hex : dirEx fs contentDir = true :=
          dirEx_of_md_under contentDir hwf (mem_of_walk hfw).1 hcond.1 (by decide)
            (mem_of_walk hfw).2.1
        rw [hex] at hnc2
        cases hnc2
      rw [hnil]
      rfl
    · refine ((perm_sortDesc _ _).map _).trans (List.Perm.of_eq ?_)
      have hsub : ∀ f ∈ walk fs contentDir 4, f ∈ fs.files :=
        fun f hf => (mem_of_walk hf).1
      revert hsub
      generalize walk fs contentDir 4 = l
      intro hsub
      induction l with
      | nil => rfl
      | cons f t ih =>
        have hft : f ∈ fs.files := hsub f (List.mem_cons_self f t)
        have iht := ih (fun g hg => hsub g (List.mem_cons_of_mem f hg))
        by_cases hmd : isMdF f = true
        · by_cases hfl : draftFlagOf f = true
          · have hpick : pickDraft fs f = some (Draft.from_file f) := by
              have hfl2 : (Draft.from_file f).frontmatter.draft.getD false = true := hfl
              simp only [pickDraft, hmd, if_true, hfl2, Bool.true_or]
            rw [List.filterMap_cons, hpick, List.filter_cons, List.map_cons]
            have hcond : (isMdF f && (underDrafts f.path || draftFlagOf f)) = true := by
              rw [hmd, hfl]
              simp
            rw [hcond]
            simp only [if_true, List.map_cons]
            exact congrArg _ iht
          · by_cases hpre : underDrafts f.path = true
            · have hex : dirEx fs draftsDir = true := by
                have hpre4 : draftsDir.isPrefixOf f.path = true := hpre
                exact dirEx_of_md_under draftsDir hwf hft hmd (by decide) hpre4
              have hpick : pickDraft fs f = some (Draft.from_file f) := by
                have hfl2 : (Draft.from_file f).frontmatter.draft.getD false = false := by
                  cases hq : (Draft.from_file f).frontmatter.draft.getD false
                  · rfl
                  · exact absurd hq hfl
                have hpre4 : draftsDir.isPrefixOf f.path = true := hpre
                simp [pickDraft, hmd, hfl2, hex, hpre4]
              rw [List.filterMap_cons, hpick, List.filter_cons, List.map_cons]
              have hcond : (isMdF f && (underDrafts f.path || draftFlagOf f)) = true := by
                rw [hmd, hpre]
                simp
              rw [hcond]
              simp only [if_true, List.map_cons]
              exact congrArg _ iht
            · have hfl3 : draftFlagOf f = false := by
                cases hq : draftFlagOf f
                · rfl
                · exact absurd hq hfl
              have hpre3 : underDrafts f.path = false := by
                cases hq : underDrafts f.path
                · rfl
                · exact absurd hq hpre
              have hpick : pickDraft fs f = none := by
                have hfl2 : (Draft.from_file f).frontmatter.draft.getD false = false := hfl3
                have hpre2 : draftsDir.isPrefixOf f.path = false := hpre3
                simp [pickDraft, hmd, hfl2, hpre2]
              rw [List.filterMap_cons, hpick, List.filter_cons]
              have hcond : (isMdF f && (underDrafts f.path || draftFlagOf f)) = false := by
                rw [hmd, hfl3, hpre3]
                simp
              rw [hcond]
              simp only [Bool.false_eq_true, if_false]
              exact iht
        · have hmd2 : isMdF f = false := Bool.not_eq_true _ ▸ hmd
          have hpick : pickDraft fs f = none := by
            simp only [pickDraft, hmd2, Bool.false_eq_true, if_false]
          rw [List.filterMap_cons, hpick, List.filter_cons]
          have hcond : (isMdF f && (underDrafts f.path || draftFlagOf f)) = false := by
            rw [hmd2]
            simp
          rw [hcond]
          simp only [Bool.false_eq_true, if_false]
          exact iht

/-- C5 witness: the general part applied to the example snapshot. -/
theorem c5_draft_classification_witness :
    ((list_drafts exC5Fs).map (·.id)).Perm
      (((walk exC5Fs contentDir 4).filter
          (fun f => isMdF f && (underDrafts f.path || draftFlagOf f))).map
        (·.path)) :=
  ((c5_draft_classification.1 exFmt exC5Fs (by decide)).2)

/-- C6 counterexample: the nested page-bundle file
`content/posts/sub/index.md` appears in the Post listing, so a file named
`index.md` is not excluded as the claim asserts. -/
theorem c6_index_md_listed_counterexample :
    (list_posts exFmt exC6Fs).map (·.id) =
      [[strOf "content", strOf "posts", strOf "sub", strOf "index.md"]] ∧
    [strOf "content", strOf "posts", strOf "sub", strOf "index.md"].getLastD []
      = strOf "index.md" := by
  refine ⟨by decide, by decide⟩

/-- C6 (amended).  Every item of the Post listing is a markdown file under
the resolved posts directory; only the reserved name `_index.md` is excluded
— `index.md` is not. -/
theorem c6_posts_exclude_only_underscore_index (fmt : Int → Str) (fs : Fs)
    (p : Post) (hp : p ∈ list_posts fmt fs) :
    (get_posts_dir fs).isPrefixOf p.id = true ∧
    (extStem (p.id.getLastD [])).2 = some (strOf "md") ∧
    p.id.getLastD [] ≠ strOf "_index.md" := by
  unfold list_posts at hp
  split at hp
  · cases hp
  · have hp2 := (perm_sortDesc _ _).mem_iff.mp hp
    obtain ⟨f, hfw, hpick⟩ := List.mem_filterMap.mp hp2
    obtain ⟨hmd, hidx, _, _, hpf⟩ := pickPost_some hpick
    have hid : p.id = f.path := by rw [hpf]; rfl
    rw [hid]
    refine ⟨(mem_of_walk hfw).2.1, ?_, hidx⟩
    unfold isMdF extOf fileNameOf at hmd
    simpa using hmd

/-- C6 witness: the amended statement applied to the concrete listed
bundle post. -/
theorem c6_posts_exclude_only_underscore_index_witness :
    (Post.from_file exFmt c6File).id.getLastD [] ≠ strOf "_index.md" :=
  (c6_posts_exclude_only_underscore_index exFmt exC6Fs
    (Post.from_file exFmt c6File) (by decide)).2.2

/-! ## Path validation (C10) -/

theorem validate_ok_comps {s p : Str} (hp : validate_relative_path s = .ok p) :
    ∀ c ∈ pathComponents s, compOk c = true := by
  unfold validate_relative_path at hp
  split_ifs at hp with he ha hall
  · have hs : s = [] := by simpa using he
    subst hs
    decide
  · exact fun c hc => List.all_eq_true.mp hall c hc

theorem validate_ok_not_abs {s p : Str} (hp : validate_relative_path s = .ok p) :
    isAbsolutePath s = false := by
  unfold validate_relative_path at hp
  split_ifs at hp with he ha hall
  · have hs : s = [] := by simpa using he
    subst hs
    rfl
  · cases hq : isAbsolutePath s
    · rfl
    · exact absurd hq ha

theorem resolve_of_comps_ok (base : List Str) (comps : List PComp)
    (h : ∀ c ∈ comps, compOk c = true) :
    resolveComps base comps = base ++ normalSegs comps := by
  induction comps generalizing base with
  | nil => simp [resolveComps, normalSegs]
  | cons c rest ih =>
    cases c with
    | normal seg =>
      have := ih (base ++ [seg]) (fun d hd => h d (List.mem_cons_of_mem _ hd))
      simp only [resolveComps, normalSegs, this, List.append_assoc,
        List.singleton_append]
    | curDir =>
      have := ih base (fun d hd => h d (List.mem_cons_of_mem _ hd))
      simpa [resolveComps, normalSegs] using this
    | parentDir => exact absurd (h _ (List.mem_cons_self _ _)) (by decide)
    | rootDir => exact absurd (h _ (List.mem_cons_self _ _)) (by decide)

/-- C10.  `validate_relative_path` accepts exactly the non-absolute paths
whose components are all normal or current-directory components (no parent,
root, or prefix component — the latter cannot occur on Unix); consequently
joining an accepted path onto the static directory resolves at or below that
directory. -/
theorem c10_validate_relative_path (s : Str) :
    ((∃ p, validate_relative_path s = .ok p) ↔
      (isAbsolutePath s = false ∧ ∀ c ∈ pathComponents s, compOk c = true)) ∧
    (∀ (base : List Str) (p : Str), validate_relative_path s = .ok p →
      resolveComps base (pathComponents s) = base ++ normalSegs (pathComponents s) ∧
      base <+: resolveComps base (pathComponents s)) := by
  constructor
  · constructor
    · rintro ⟨p, hp⟩
      exact ⟨validate_ok_not_abs hp, validate_ok_comps hp⟩
    · rintro ⟨hna, hall⟩
      unfold validate_relative_path
      split_ifs with he ha hall2
      · exact ⟨[], rfl⟩
      · rw [ha] at hna
        cases hna
      · exact ⟨s, rfl⟩
      · exact absurd (List.all_eq_true.mpr hall) hall2
  · intro base p hp
    have hall := validate_ok_comps hp
    refine ⟨resolve_of_comps_ok base _ hall, ?_⟩
    rw [resolve_of_comps_ok base _ hall]
    exact List.prefix_append _ _

/-- C10 witness: a concrete accepted path resolved under the static
directory stays below it. -/
theorem c10_validate_relative_path_witness :
    resolveComps staticDir (pathComponents (strOf "img/a.png")) =
      staticDir ++ normalSegs (pathComponents (strOf "img/a.png")) ∧
    staticDir <+: resolveComps staticDir (pathComponents (strOf "img/a.png")) :=
  (c10_validate_relative_path (strOf "img/a.png")).2 staticDir
    (strOf "img/a.png") (by rfl)

end HugoBros
